import Mathlib

/-!
Formal model of the structural code analyzer in
`graph_service/examples/phase3_advanced_project/python_service.py`.

Python strings are modelled as `List Char` (`PyStr`).  The string
operations used by the analyzer (`str.strip`, `str.split('\n')`,
`str.split('(')`, whitespace `str.split()`, `str.startswith`, the `in`
substring test, `str.lower`) are given explicit executable models below.
Python list indexing (`[1]`, `[-1]`, `[0]`) is modelled through `Option`
(`List.getElem?`, `List.head?`, `List.getLast?`) so that "the code never
raises IndexError" becomes the provable statement that the analysis
functions never return `none`.

Floats are modelled by rationals: the only float computation in scope is
`calculate_complexity_score`, whose intermediate values are exact
multiples of 1/10, where Python binary floating point and `round(x, 2)`
(half-to-even) agree with exact rational arithmetic and the rounding
model `pyRound2` below.
-/

/-- A Python string, modelled as its list of characters. -/
abbrev PyStr := List Char

/-- ASCII whitespace as recognised by Python's `str.strip()` / `str.split()`
(space, tab, newline, carriage return, vertical tab, form feed).
Python also strips some further Unicode whitespace; none of the analyzer's
marker strings contain such characters. -/
def isPyWs (c : Char) : Bool :=
  c = ' ' || c = '\t' || c = '\n' || c = '\r' || c = '\x0b' || c = '\x0c'

/-- Model of Python `s.strip()`: remove leading and trailing whitespace. -/
def pyStrip (s : PyStr) : PyStr :=
  ((s.dropWhile isPyWs).reverse.dropWhile isPyWs).reverse

/-- Model of Python `s.split(sep)` for a one-character separator: split at
every occurrence, keeping empty pieces; the empty string yields `[""]`. -/
def splitOnChar (sep : Char) : PyStr → List PyStr
  | [] => [[]]
  | c :: rest =>
    if c = sep then [] :: splitOnChar sep rest
    else
      match splitOnChar sep rest with
      | [] => [[c]]
      | h :: t => (c :: h) :: t

/-- Model of Python `s.startswith(p)`. -/
def pyStartsWith : PyStr → PyStr → Bool
  | [], _ => true
  | _ :: _, [] => false
  | p :: ps, c :: cs => p = c && pyStartsWith ps cs

/-- Model of the Python substring test `needle in hay`. -/
def containsSub (needle : PyStr) : PyStr → Bool
  | [] => pyStartsWith needle []
  | c :: rest => pyStartsWith needle (c :: rest) || containsSub needle rest

/-- Helper for `pySplitWs`: `cur` is the (reversed) token being built. -/
def pySplitWsAux : PyStr → PyStr → List PyStr
  | [], cur => if cur.isEmpty then [] else [cur.reverse]
  | c :: rest, cur =>
    if isPyWs c then
      if cur.isEmpty then pySplitWsAux rest []
      else cur.reverse :: pySplitWsAux rest []
    else pySplitWsAux rest (c :: cur)

/-- Model of Python `s.split()` (no argument): split on runs of
whitespace, discarding empty tokens. -/
def pySplitWs (s : PyStr) : List PyStr := pySplitWsAux s []

/-- Model of Python `s.lower()` (ASCII case folding suffices for the
marker strings involved). -/
def pyLower (s : PyStr) : PyStr := s.map Char.toLower

/-- An entry of the `entities` list built by `analyze_code_structure`:
`{"type": ..., "name": ..., "line": ...}`. -/
structure Entity where
  type : PyStr
  name : PyStr
  line : Nat
deriving DecidableEq

/-- An entry of the `relationships` list built by `analyze_code_structure`:
`{"type": ..., "source": ..., "target": ..., "line": ...}`. -/
structure Relationship where
  type : PyStr
  source : PyStr
  target : PyStr
  line : Nat
deriving DecidableEq

/-- The dictionary returned by `analyze_code_structure`.  The Python value
`list(set(patterns))` has an unspecified element order, so the pattern
collection is modelled as the `Finset` of tags. -/
structure StructureResult where
  entities_count : Nat
  relationships_count : Nat
  entities : List Entity
  relationships : List Relationship
  patterns : Finset PyStr
deriving DecidableEq

/-- The first-match rule chain of the line loop of
`analyze_code_structure` (source lines 188-221), applied to the already
stripped line.  Returns the entity, relationship, and pattern tags
contributed by this line; `none` models an uncaught IndexError from
token indexing. -/
def stepLineCore (i : Nat) (line : PyStr) :
    Option (Option Entity × Option Relationship × List PyStr) :=
  if pyStartsWith "func ".data line || pyStartsWith "def ".data line then do
    -- func_name = line.split('(')[0].split()[-1]
    let seg ← (splitOnChar '(' line).head?
    let fn ← (pySplitWs seg).getLast?
    some (some ⟨"function".data, fn, i + 1⟩, none, [])
  else if pyStartsWith "type ".data line || pyStartsWith "class ".data line then do
    -- type_name = line.split()[1].split('(')[0].split('[')[0]
    let tok ← (pySplitWs line)[1]?
    let tok2 ← (splitOnChar '(' tok).head?
    let name ← (splitOnChar '[' tok2).head?
    some (some ⟨"type".data, name, i + 1⟩, none, [])
  else if containsSub "chan ".data line || containsSub "make(chan".data line then
    some (none, none, ["channel_usage".data])
  else if pyStartsWith "go ".data line then do
    -- target = line.split()[1].split('(')[0]
    let tok ← (pySplitWs line)[1]?
    let target ← (splitOnChar '(' tok).head?
    some (none, some ⟨"launches".data, "current_function".data, target, i + 1⟩,
      ["goroutine_launch".data])
  else
    some (none, none, [])

/-- One iteration of the line loop: `line = line.strip()` followed by the
rule chain. -/
def stepLine (i : Nat) (rawLine : PyStr) :
    Option (Option Entity × Option Relationship × List PyStr) :=
  stepLineCore i (pyStrip rawLine)

/-- The line loop of `analyze_code_structure`: `i` is the 0-based index of
the first remaining line. -/
def scanLines : Nat → List PyStr → Option (List Entity × List Relationship × List PyStr)
  | _, [] => some ([], [], [])
  | i, raw :: rest => do
    let (e?, r?, ps) ← stepLine i raw
    let (es, rs, ps') ← scanLines (i + 1) rest
    some (e?.toList ++ es, r?.toList ++ rs, ps ++ ps')

/-- Model of `analyze_code_structure` (source lines 175-238): split the
text into lines, run the line loop, then the three whole-text pattern
checks, and assemble the result dictionary. -/
def analyze_code_structure (code_content : PyStr) : Option StructureResult := do
  let lines := splitOnChar '\n' code_content
  let (entities, relationships, basePats) ← scanLines 0 lines
  let pats := basePats
    ++ (if containsSub "select \x7b".data code_content then ["select_pattern".data] else [])
    ++ (if containsSub "sync.WaitGroup".data code_content then ["wait_group_pattern".data] else [])
    ++ (if containsSub "context.Context".data code_content then ["context_pattern".data] else [])
  some
    { entities_count := entities.length
      relationships_count := relationships.length
      entities := entities
      relationships := relationships
      patterns := pats.toFinset }

/-- Result of a language specializer: the base `analyze_code_structure`
dictionary plus the language-specific pattern list (`python_patterns` /
`go_patterns`) and the `language` tag added on top of it. -/
structure LangResult where
  base : StructureResult
  lang_patterns : List PyStr
  language : PyStr
deriving DecidableEq

/-- Model of `analyze_python_code` (source lines 240-259). -/
def analyze_python_code (code_content : PyStr) : Option LangResult := do
  let result ← analyze_code_structure code_content
  let python_patterns : List PyStr :=
    (if containsSub "async def".data code_content then ["async_function".data] else [])
    ++ (if containsSub "await ".data code_content then ["await_usage".data] else [])
    ++ (if containsSub "@".data code_content then ["decorator_usage".data] else [])
    ++ (if containsSub "yield".data code_content then ["generator_pattern".data] else [])
  some ⟨result, python_patterns, "python".data⟩

/-- Model of `analyze_go_code` (source lines 261-280). -/
def analyze_go_code (code_content : PyStr) : Option LangResult := do
  let result ← analyze_code_structure code_content
  let go_patterns : List PyStr :=
    (if containsSub "[".data code_content && containsSub "]".data code_content
        && containsSub "func".data code_content
      then ["generics_usage".data] else [])
    ++ (if containsSub "interface\x7b".data code_content then ["interface_definition".data] else [])
    ++ (if containsSub "defer ".data code_content then ["defer_usage".data] else [])
    ++ (if containsSub "recover()".data code_content then ["panic_recovery".data] else [])
  some ⟨result, go_patterns, "go".data⟩

/-- The dictionary returned by `extract_design_patterns`. -/
structure DesignPatternResult where
  design_patterns : List PyStr
  pattern_count : Nat
deriving DecidableEq

/-- Model of `extract_design_patterns` (source lines 282-306). -/
def extract_design_patterns (code_content : PyStr) : DesignPatternResult :=
  let patterns : List PyStr :=
    (if ["chan".data, "goroutine".data, "worker".data].all (fun kw => containsSub kw code_content)
      then ["worker_pool".data] else [])
    ++ (if containsSub "chan".data code_content && containsSub "select".data code_content
      then ["pipeline".data] else [])
    ++ (if containsSub "Producer".data code_content && containsSub "Consumer".data code_content
      then ["producer_consumer".data] else [])
    ++ (if containsSub "sync.Once".data code_content
          || (containsSub "once".data (pyLower code_content)
              && containsSub "do".data (pyLower code_content))
      then ["singleton".data] else [])
  ⟨patterns, patterns.length⟩

/-- Model of Python `round(q, 2)`.  Mathlib's `round` rounds half away
from zero while Python rounds half to even, but every score produced by
`calculate_complexity_score` is an exact multiple of 1/10, where the two
conventions agree (no half-way case at the second decimal arises). -/
def pyRound2 (q : ℚ) : ℚ := ((round (q * 100) : ℤ) : ℚ) / 100

/-- Model of `calculate_complexity_score` (source lines 325-331);
`0.1 = 1/10`, `0.2 = 2/10`, `0.5 = 5/10`. -/
def calculate_complexity_score (structure_result : StructureResult)
    (patterns : DesignPatternResult) : ℚ :=
  let base_score := (structure_result.entities_count : ℚ) * (1 / 10)
  let relationship_score := (structure_result.relationships_count : ℚ) * (2 / 10)
  let pattern_score := (patterns.design_patterns.length : ℚ) * (5 / 10)
  pyRound2 (base_score + relationship_score + pattern_score)

/-- The fields of an analysis-result dictionary that
`generate_cross_language_insights` reads: `result.get("entities_count", 0)`
and `set(result.get("patterns", []))`. -/
structure InsightInput where
  entities_count : Nat
  patterns : Finset PyStr
deriving DecidableEq

/-- The set-valued and numeric fields of the dictionary returned by
`generate_cross_language_insights`.  The human-readable `insights`
strings are not modelled: they are built with `', '.join` over Python
sets, whose iteration order is unspecified. -/
structure InsightReport where
  common_patterns : Finset PyStr
  python_unique : Finset PyStr
  go_unique : Finset PyStr
  similarity_score : ℚ
deriving DecidableEq

/-- Model of `generate_cross_language_insights` (source lines 333-370,
set/score fields). -/
def generate_cross_language_insights (python_result go_result : InsightInput) :
    InsightReport :=
  let py_patterns := python_result.patterns
  let go_patterns := go_result.patterns
  let common_patterns := py_patterns ∩ go_patterns
  let unique_py := py_patterns \ go_patterns
  let unique_go := go_patterns \ py_patterns
  { common_patterns := common_patterns
    python_unique := unique_py
    go_unique := unique_go
    similarity_score :=
      (common_patterns.card : ℚ) /
        ((max ((py_patterns.card : ℤ) + (go_patterns.card : ℤ) - (common_patterns.card : ℤ)) 1 : ℤ) : ℚ) }

/-! ### Helper lemmas about the string model -/

theorem pyStartsWith_iff (p s : PyStr) : pyStartsWith p s = true ↔ ∃ t, s = p ++ t := by
  induction p generalizing s with
  | nil => simp [pyStartsWith]
  | cons a p ih =>
    cases s with
    | nil =>
      simp [pyStartsWith]
    | cons c cs =>
      simp only [pyStartsWith, Bool.and_eq_true, decide_eq_true_eq, ih, List.cons_append]
      constructor
      · rintro ⟨rfl, t, rfl⟩; exact ⟨t, rfl⟩
      · rintro ⟨t, ht⟩
        cases ht
        exact ⟨rfl, t, rfl⟩

theorem splitOnChar_ne_nil (sep : Char) (s : PyStr) : splitOnChar sep s ≠ [] := by
  induction s with
  | nil => simp [splitOnChar]
  | cons c rest ih =>
    simp only [splitOnChar]
    split
    · simp
    · split <;> simp

theorem splitOnChar_cons_ne {sep c : Char} (rest : PyStr) (h : c ≠ sep) :
    ∃ u t, splitOnChar sep (c :: rest) = (c :: u) :: t := by
  simp only [splitOnChar, if_neg h]
  cases hs : splitOnChar sep rest with
  | nil => exact absurd hs (splitOnChar_ne_nil sep rest)
  | cons h' t' => exact ⟨h', t', rfl⟩

theorem mem_of_mem_splitOnChar {sep : Char} {s : PyStr} {l : PyStr} {c : Char}
    (hl : l ∈ splitOnChar sep s) (hc : c ∈ l) : c ∈ s := by
  induction s generalizing l with
  | nil =>
    simp [splitOnChar] at hl
    subst hl
    simp at hc
  | cons a rest ih =>
    simp only [splitOnChar] at hl
    split at hl
    · rcases List.mem_cons.mp hl with rfl | hl'
      · simp at hc
      · exact List.mem_cons_of_mem a (ih hl' hc)
    · cases hs : splitOnChar sep rest with
      | nil => exact absurd hs (splitOnChar_ne_nil sep rest)
      | cons h' t' =>
        rw [hs] at hl
        rcases List.mem_cons.mp hl with rfl | hl'
        · rcases List.mem_cons.mp hc with rfl | hc'
          · exact List.mem_cons_self _ _
          · exact List.mem_cons_of_mem a (ih (by rw [hs]; exact List.mem_cons_self _ _) hc')
        · exact List.mem_cons_of_mem a (ih (by rw [hs]; exact List.mem_cons_of_mem _ hl') hc)

theorem dropWhile_head_not {p : Char → Bool} {l : PyStr} {c : Char} {t : PyStr}
    (h : l.dropWhile p = c :: t) : p c = false := by
  induction l with
  | nil => simp [List.dropWhile] at h
  | cons a l ih =>
    rw [List.dropWhile_cons] at h
    split at h
    · exact ih h
    · cases h
      simpa using ‹¬p c = true›

theorem pyStrip_getLast?_not_ws {s : PyStr} {c : Char}
    (h : (pyStrip s).getLast? = some c) : isPyWs c = false := by
  unfold pyStrip at h
  rw [List.getLast?_reverse] at h
  cases hd : List.dropWhile isPyWs ((s.dropWhile isPyWs).reverse) with
  | nil => rw [hd] at h; simp at h
  | cons a t =>
    rw [hd] at h
    simp only [List.head?_cons, Option.some.injEq] at h
    subst h
    exact dropWhile_head_not hd

theorem pyStrip_eq_nil {s : PyStr} (h : ∀ c ∈ s, isPyWs c = true) : pyStrip s = [] := by
  unfold pyStrip
  have h1 : s.dropWhile isPyWs = [] := List.dropWhile_eq_nil_iff.mpr (by simpa using h)
  rw [h1]
  rfl

theorem pySplitWsAux_ne_nil {s cur : PyStr}
    (h : cur ≠ [] ∨ ∃ c ∈ s, isPyWs c = false) : pySplitWsAux s cur ≠ [] := by
  induction s generalizing cur with
  | nil =>
    rcases h with h | h
    · simp [pySplitWsAux, List.isEmpty_iff, h]
    · simp at h
  | cons c rest ih =>
    simp only [pySplitWsAux]
    by_cases hws : isPyWs c = true
    · rw [if_pos hws]
      by_cases hcur : cur.isEmpty = true
      · rw [if_pos hcur]
        rcases h with h | ⟨d, hd, hdws⟩
        · exact absurd (List.isEmpty_iff.mp hcur) h
        · rcases List.mem_cons.mp hd with rfl | hd'
          · rw [hws] at hdws; cases hdws
          · exact ih (Or.inr ⟨d, hd', hdws⟩)
      · rw [if_neg hcur]; simp
    · rw [if_neg hws]
      exact ih (Or.inl (by simp))

theorem pySplitWsAux_append {w : PyStr} (hw : ∀ c ∈ w, isPyWs c = false) (s cur : PyStr) :
    pySplitWsAux (w ++ s) cur = pySplitWsAux s (w.reverse ++ cur) := by
  induction w generalizing cur with
  | nil => simp
  | cons a w ih =>
    have ha : isPyWs a = false := hw a (List.mem_cons_self _ _)
    simp only [List.cons_append, pySplitWsAux, ha]
    rw [if_neg (by simp)]
    have h2 := ih (fun c hc => hw c (List.mem_cons_of_mem a hc)) (a :: cur)
    rw [show pySplitWsAux (w.append s) (a :: cur) = pySplitWsAux s (w.reverse ++ (a :: cur)) from h2]
    simp

theorem pySplitWs_second {w s : PyStr} (hw_ne : w ≠ []) (hw : ∀ c ∈ w, isPyWs c = false)
    (hpre : pyStartsWith (w ++ [' ']) s = true)
    (hlast : ∀ c, s.getLast? = some c → isPyWs c = false) :
    ∃ a t, pySplitWs s = w :: a :: t := by
  obtain ⟨rest, hrest⟩ := (pyStartsWith_iff _ _).mp hpre
  subst hrest
  have hrest_ne : ∃ c ∈ rest, isPyWs c = false := by
    rcases rest with _ | ⟨r0, rs⟩
    · exfalso
      have h1 : ((w ++ [' ']) ++ ([] : PyStr)).getLast? = some ' ' := by
        simp
      have := hlast ' ' h1
      simp [isPyWs] at this
    · have h1 : ((w ++ [' ']) ++ (r0 :: rs)).getLast? = (r0 :: rs).getLast? :=
        List.getLast?_append_of_ne_nil _ (by simp)
      obtain ⟨d, hd⟩ : ∃ d, (r0 :: rs).getLast? = some d :=
        ⟨(r0 :: rs).getLast (by simp), List.getLast?_eq_getLast _ _⟩
      have hdws := hlast d (by rw [h1, hd])
      exact ⟨d, List.mem_of_mem_getLast? (show d ∈ (r0 :: rs).getLast? by simp [hd]), hdws⟩
  have h2 : pySplitWs ((w ++ [' ']) ++ rest) = w :: pySplitWs rest := by
    unfold pySplitWs
    rw [List.append_assoc]
    rw [show ([' '] ++ rest : PyStr) = ' ' :: rest from rfl]
    rw [pySplitWsAux_append hw]
    simp only [pySplitWsAux, List.append_nil]
    rw [if_pos (by decide)]
    rw [if_neg (by simp [List.isEmpty_iff, hw_ne])]
    simp
  cases h3 : pySplitWs rest with
  | nil => exact absurd h3 (pySplitWsAux_ne_nil (Or.inr hrest_ne))
  | cons a t => exact ⟨a, t, by rw [h2, h3]⟩

theorem pySplitWs_getLast?_isSome {s : PyStr} (h : ∃ c ∈ s, isPyWs c = false) :
    ∃ fn, (pySplitWs s).getLast? = some fn := by
  have hne : pySplitWs s ≠ [] := pySplitWsAux_ne_nil (Or.inr h)
  exact Option.isSome_iff_exists.mp (List.getLast?_isSome.mpr hne)

theorem containsSub_mem {n h : PyStr} (hc : containsSub n h = true) : ∀ c ∈ n, c ∈ h := by
  induction h with
  | nil =>
    simp only [containsSub] at hc
    obtain ⟨t, ht⟩ := (pyStartsWith_iff _ _).mp hc
    rcases List.append_eq_nil.mp ht.symm with ⟨rfl, -⟩
    simp
  | cons a rest ih =>
    simp only [containsSub, Bool.or_eq_true] at hc
    rcases hc with hc | hc
    · obtain ⟨t, ht⟩ := (pyStartsWith_iff _ _).mp hc
      intro c hcn
      rw [ht]
      exact List.mem_append_left _ hcn
    · intro c hcn
      exact List.mem_cons_of_mem a (ih hc c hcn)

theorem containsSub_false_of_ws {n h : PyStr} {a : Char}
    (hh : ∀ c ∈ h, isPyWs c = true) (han : a ∈ n) (haws : isPyWs a = false) :
    containsSub n h = false := by
  by_contra hcon
  have : containsSub n h = true := by
    cases hb : containsSub n h
    · exact absurd hb hcon
    · rfl
  have := hh a (containsSub_mem this a han)
  rw [haws] at this
  cases this

theorem containsSub_singleton {a : Char} {h : PyStr} :
    containsSub [a] h = true ↔ a ∈ h := by
  induction h with
  | nil => simp [containsSub, pyStartsWith]
  | cons c rest ih =>
    simp only [containsSub, Bool.or_eq_true, ih, pyStartsWith, Bool.and_eq_true,
      decide_eq_true_eq, List.mem_cons]
    constructor
    · rintro (⟨rfl, -⟩ | h)
      · exact Or.inl rfl
      · exact Or.inr h
    · rintro (rfl | h)
      · exact Or.inl ⟨rfl, trivial⟩
      · exact Or.inr h

/-! ### Totality of the scanner -/

theorem stepLineCore_isSome (i : Nat) (line : PyStr)
    (hlast : ∀ c, line.getLast? = some c → isPyWs c = false) :
    (stepLineCore i line).isSome = true := by
  unfold stepLineCore
  by_cases h1 : (pyStartsWith "func ".data line || pyStartsWith "def ".data line) = true
  · rw [if_pos h1]
    have hcons : ∃ c rest, line = c :: rest ∧ isPyWs c = false ∧ c ≠ '(' := by
      rcases (by simpa using h1 :
          pyStartsWith "func ".data line = true ∨ pyStartsWith "def ".data line = true) with h | h
      · obtain ⟨t, ht⟩ := (pyStartsWith_iff _ _).mp h
        exact ⟨'f', 'u' :: 'n' :: 'c' :: ' ' :: t, ht, by decide, by decide⟩
      · obtain ⟨t, ht⟩ := (pyStartsWith_iff _ _).mp h
        exact ⟨'d', 'e' :: 'f' :: ' ' :: t, ht, by decide, by decide⟩
    obtain ⟨c, rest, hline, hcws, hcp⟩ := hcons
    subst hline
    obtain ⟨u, tl, hsplit⟩ := splitOnChar_cons_ne rest hcp
    obtain ⟨fn, hfn⟩ :=
      pySplitWs_getLast?_isSome (s := c :: u) ⟨c, List.mem_cons_self _ _, hcws⟩
    rw [hsplit]
    simp [hfn]
  · rw [if_neg h1]
    by_cases h2 : (pyStartsWith "type ".data line || pyStartsWith "class ".data line) = true
    · rw [if_pos h2]
      have hsp2 : ∃ w a t, pySplitWs line = w :: a :: t := by
        rcases (by simpa using h2 :
            pyStartsWith "type ".data line = true ∨ pyStartsWith "class ".data line = true)
            with h | h
        · have hpre : pyStartsWith ("type".data ++ [' ']) line = true := h
          obtain ⟨a, t, hsp⟩ := pySplitWs_second (by decide) (by decide) hpre hlast
          exact ⟨_, a, t, hsp⟩
        · have hpre : pyStartsWith ("class".data ++ [' ']) line = true := h
          obtain ⟨a, t, hsp⟩ := pySplitWs_second (by decide) (by decide) hpre hlast
          exact ⟨_, a, t, hsp⟩
      obtain ⟨w, a, t, hsp⟩ := hsp2
      rw [hsp]
      obtain ⟨x, xs, hx⟩ := List.exists_cons_of_ne_nil (splitOnChar_ne_nil '(' a)
      obtain ⟨y, ys, hy⟩ := List.exists_cons_of_ne_nil (splitOnChar_ne_nil '[' x)
      simp [hx, hy]
    · rw [if_neg h2]
      by_cases h3 : (containsSub "chan ".data line || containsSub "make(chan".data line) = true
      · rw [if_pos h3]; rfl
      · rw [if_neg h3]
        by_cases h4 : pyStartsWith "go ".data line = true
        · rw [if_pos h4]
          have hpre : pyStartsWith ("go".data ++ [' ']) line = true := h4
          obtain ⟨a, t, hsp⟩ := pySplitWs_second (by decide) (by decide) hpre hlast
          rw [hsp]
          obtain ⟨x, xs, hx⟩ := List.exists_cons_of_ne_nil (splitOnChar_ne_nil '(' a)
          simp [hx]
        · rw [if_neg h4]; rfl

theorem stepLine_isSome (i : Nat) (raw : PyStr) : (stepLine i raw).isSome = true :=
  stepLineCore_isSome i (pyStrip raw) (fun _ hc => pyStrip_getLast?_not_ws hc)

theorem scanLines_isSome (lines : List PyStr) : ∀ i, (scanLines i lines).isSome = true := by
  induction lines with
  | nil => intro i; rfl
  | cons raw rest ih =>
    intro i
    obtain ⟨⟨e?, r?, ps⟩, hstep⟩ := Option.isSome_iff_exists.mp (stepLine_isSome i raw)
    obtain ⟨⟨es, rs, ps'⟩, hrec⟩ := Option.isSome_iff_exists.mp (ih (i + 1))
    simp [scanLines, hstep, hrec]

theorem analyze_code_structure_isSome (text : PyStr) :
    (analyze_code_structure text).isSome = true := by
  obtain ⟨⟨es, rs, ps⟩, hscan⟩ :=
    Option.isSome_iff_exists.mp (scanLines_isSome (splitOnChar '\n' text) 0)
  simp [analyze_code_structure, hscan]

theorem analyze_python_code_isSome (text : PyStr) :
    (analyze_python_code text).isSome = true := by
  obtain ⟨r, hr⟩ := Option.isSome_iff_exists.mp (analyze_code_structure_isSome text)
  simp [analyze_python_code, hr]

theorem analyze_go_code_isSome (text : PyStr) :
    (analyze_go_code text).isSome = true := by
  obtain ⟨r, hr⟩ := Option.isSome_iff_exists.mp (analyze_code_structure_isSome text)
  simp [analyze_go_code, hr]

/-! ### Line numbers and ordering -/

theorem stepLineCore_line_bounds {i : Nat} {line : PyStr} {e? : Option Entity}
    {r? : Option Relationship} {ps : List PyStr}
    (h : stepLineCore i line = some (e?, r?, ps)) :
    (∀ e, e? = some e → e.line = i + 1) ∧ (∀ r, r? = some r → r.line = i + 1) := by
  unfold stepLineCore at h
  split_ifs at h with h1 h2 h3 h4
  · simp only [Option.bind_eq_bind, Option.bind_eq_some] at h
    obtain ⟨seg, hseg, fn, hfn, heq⟩ := h
    simp only [Option.some.injEq, Prod.mk.injEq] at heq
    obtain ⟨h5, h6, h7⟩ := heq
    subst h5; subst h6
    refine ⟨?_, ?_⟩
    · intro e he
      injection he with he
      subst he
      rfl
    · intro r hr
      cases hr
  · simp only [Option.bind_eq_bind, Option.bind_eq_some] at h
    obtain ⟨tok, htok, tok2, htok2, nm, hnm, heq⟩ := h
    simp only [Option.some.injEq, Prod.mk.injEq] at heq
    obtain ⟨h5, h6, h7⟩ := heq
    subst h5; subst h6
    refine ⟨?_, ?_⟩
    · intro e he
      injection he with he
      subst he
      rfl
    · intro r hr
      cases hr
  · simp only [Option.some.injEq, Prod.mk.injEq] at h
    obtain ⟨h5, h6, h7⟩ := h
    subst h5; subst h6
    exact ⟨(fun e he => nomatch he), (fun r hr => nomatch hr)⟩
  · simp only [Option.bind_eq_bind, Option.bind_eq_some] at h
    obtain ⟨tok, htok, target, htarget, heq⟩ := h
    simp only [Option.some.injEq, Prod.mk.injEq] at heq
    obtain ⟨h5, h6, h7⟩ := heq
    subst h5; subst h6
    refine ⟨?_, ?_⟩
    · intro e he
      cases he
    · intro r hr
      injection hr with hr
      subst hr
      rfl
  · simp only [Option.some.injEq, Prod.mk.injEq] at h
    obtain ⟨h5, h6, h7⟩ := h
    subst h5; subst h6
    exact ⟨(fun e he => nomatch he), (fun r hr => nomatch hr)⟩

theorem stepLine_line_bounds {i : Nat} {raw : PyStr} {e? : Option Entity}
    {r? : Option Relationship} {ps : List PyStr}
    (h : stepLine i raw = some (e?, r?, ps)) :
    (∀ e, e? = some e → e.line = i + 1) ∧ (∀ r, r? = some r → r.line = i + 1) :=
  stepLineCore_line_bounds h

theorem scanLines_sorted :
    ∀ (lines : List PyStr) (i : Nat) {es : List Entity} {rs : List Relationship}
      {ps : List PyStr},
    scanLines i lines = some (es, rs, ps) →
    (∀ e ∈ es, i < e.line) ∧ es.Pairwise (fun a b => a.line < b.line) ∧
    (∀ r ∈ rs, i < r.line) ∧ rs.Pairwise (fun a b => a.line < b.line) := by
  intro lines
  induction lines with
  | nil =>
    intro i es rs ps h
    simp only [scanLines, Option.some.injEq, Prod.mk.injEq] at h
    obtain ⟨rfl, rfl, rfl⟩ := h
    simp
  | cons raw rest ih =>
    intro i es rs ps h
    simp only [scanLines, Option.bind_eq_bind, Option.bind_eq_some] at h
    obtain ⟨⟨e?, r?, ps0⟩, hstep, ⟨es', rs', ps1⟩, hrec, heq⟩ := h
    simp only [Option.some.injEq, Prod.mk.injEq] at heq
    obtain ⟨h5, h6, h7⟩ := heq
    subst h5; subst h6
    have hl := stepLine_line_bounds hstep
    have IH := ih (i + 1) hrec
    refine ⟨?_, ?_, ?_, ?_⟩
    · intro e he
      rcases List.mem_append.mp he with he | he
      · cases e? with
        | none => simp at he
        | some e0 =>
          simp only [Option.toList_some, List.mem_singleton] at he
          subst he
          rw [hl.1 e rfl]
          exact Nat.lt_succ_self i
      · exact Nat.lt_trans (Nat.lt_succ_self i) (IH.1 e he)
    · apply List.pairwise_append.mpr
      refine ⟨?_, IH.2.1, ?_⟩
      · cases e? <;> simp
      · intro a ha b hb
        cases e? with
        | none => simp at ha
        | some e0 =>
          simp only [Option.toList_some, List.mem_singleton] at ha
          subst ha
          rw [hl.1 a rfl]
          exact IH.1 b hb
    · intro r hr
      rcases List.mem_append.mp hr with hr | hr
      · cases r? with
        | none => simp at hr
        | some r0 =>
          simp only [Option.toList_some, List.mem_singleton] at hr
          subst hr
          rw [hl.2 r rfl]
          exact Nat.lt_succ_self i
      · exact Nat.lt_trans (Nat.lt_succ_self i) (IH.2.2.1 r hr)
    · apply List.pairwise_append.mpr
      refine ⟨?_, IH.2.2.2, ?_⟩
      · cases r? <;> simp
      · intro a ha b hb
        cases r? with
        | none => simp at ha
        | some r0 =>
          simp only [Option.toList_some, List.mem_singleton] at ha
          subst ha
          rw [hl.2 a rfl]
          exact IH.2.2.1 b hb

/-! ### Whitespace-only input -/

theorem stepLine_of_ws {i : Nat} {raw : PyStr} (h : ∀ c ∈ raw, isPyWs c = true) :
    stepLine i raw = some (none, none, []) := by
  unfold stepLine
  rw [pyStrip_eq_nil h]
  rfl

theorem scanLines_of_ws {lines : List PyStr}
    (h : ∀ l ∈ lines, ∀ c ∈ l, isPyWs c = true) :
    ∀ i, scanLines i lines = some ([], [], []) := by
  induction lines with
  | nil => intro i; rfl
  | cons raw rest ih =>
    intro i
    have h1 := stepLine_of_ws (h raw (List.mem_cons_self _ _)) (i := i)
    have h2 := ih (fun l hl => h l (List.mem_cons_of_mem _ hl)) (i + 1)
    simp [scanLines, h1, h2]

/-! ### Membership in the if-guarded pattern lists -/

theorem mem_ite_singleton {a x : PyStr} {c : Prop} [Decidable c] {l : List PyStr} :
    a ∈ (if c then [x] else []) ++ l ↔ (c ∧ a = x) ∨ a ∈ l := by
  split
  · simp [*]
  · simp [*]

theorem mem_ite_singleton' {a x : PyStr} {c : Prop} [Decidable c] :
    a ∈ (if c then [x] else []) ↔ (c ∧ a = x) := by
  split
  · simp [*]
  · simp [*]

/-! ### Claims -/

/-- C1: on the text `"func Foo() \x7b\n  go Bar()\n\x7d"`, `analyze_code_structure`
produces exactly one entity `{function, Foo, 1}`, exactly one relationship
`{launches, current_function, Bar, 2}`, and the pattern set
`{goroutine_launch}` (which in particular contains `goroutine_launch`). -/
theorem scenario_goroutine_scan :
    analyze_code_structure "func Foo() \x7b\n  go Bar()\n\x7d".data =
      some
        { entities_count := 1
          relationships_count := 1
          entities := [⟨"function".data, "Foo".data, 1⟩]
          relationships := [⟨"launches".data, "current_function".data, "Bar".data, 2⟩]
          patterns := {"goroutine_launch".data} } := by decide

/-- C2: `extract_design_patterns` tags `worker_pool` iff the text contains
the channel marker `"chan"`, the task-launch marker `"goroutine"`, and the
literal token `"worker"` — all three conjunctively. -/
theorem worker_pool_iff_markers (text : PyStr) :
    "worker_pool".data ∈ (extract_design_patterns text).design_patterns ↔
      (containsSub "chan".data text = true ∧ containsSub "goroutine".data text = true ∧
        containsSub "worker".data text = true) := by
  unfold extract_design_patterns
  simp +decide only [List.append_assoc, mem_ite_singleton, mem_ite_singleton',
    List.all_cons, List.all_nil, Bool.and_eq_true, and_true, and_false, or_false,
    false_or]

/-- C3: the similarity score of `generate_cross_language_insights` is the
Jaccard ratio `|common| / max(|A| + |B| - |common|, 1)`; in particular
`{x, y}` vs `{y, z}` scores `1/3` and two empty pattern sets score `0`. -/
theorem similarity_score_jaccard :
    (∀ A B : InsightInput,
      (generate_cross_language_insights A B).similarity_score =
        ((A.patterns ∩ B.patterns).card : ℚ) /
          ((max ((A.patterns.card : ℤ) + (B.patterns.card : ℤ) -
            ((A.patterns ∩ B.patterns).card : ℤ)) 1 : ℤ) : ℚ)) ∧
    (generate_cross_language_insights ⟨0, {"x".data, "y".data}⟩
        ⟨0, {"y".data, "z".data}⟩).similarity_score = 1 / 3 ∧
    (generate_cross_language_insights ⟨0, ∅⟩ ⟨0, ∅⟩).similarity_score = 0 := by
  refine ⟨fun A B => rfl, ?_, ?_⟩
  · have h1 : (({"x".data, "y".data} : Finset PyStr) ∩ {"y".data, "z".data}) =
        {"y".data} := by decide
    have h2 : ({"x".data, "y".data} : Finset PyStr).card = 2 := by decide
    have h3 : ({"y".data, "z".data} : Finset PyStr).card = 2 := by decide
    have h4 : ({"y".data} : Finset PyStr).card = 1 := by decide
    simp only [generate_cross_language_insights, h1, h2, h3, h4]
    norm_num
  · simp only [generate_cross_language_insights, Finset.empty_inter, Finset.card_empty]
    norm_num

/-- C4: empty or whitespace-only input is not an error:
`analyze_code_structure` succeeds with zero entities, zero relationships,
and an empty pattern set. -/
theorem empty_input_yields_empty_result (text : PyStr)
    (h : ∀ c ∈ text, isPyWs c = true) :
    analyze_code_structure text =
      some
        { entities_count := 0
          relationships_count := 0
          entities := []
          relationships := []
          patterns := ∅ } := by
  have hlines : ∀ l ∈ splitOnChar '\n' text, ∀ c ∈ l, isPyWs c = true :=
    fun l hl c hc => h c (mem_of_mem_splitOnChar hl hc)
  have hscan := scanLines_of_ws hlines 0
  have hsel : containsSub "select \x7b".data text = false :=
    containsSub_false_of_ws h (show 's' ∈ "select \x7b".data by decide) (by decide)
  have hwg : containsSub "sync.WaitGroup".data text = false :=
    containsSub_false_of_ws h (show 's' ∈ "sync.WaitGroup".data by decide) (by decide)
  have hctx : containsSub "context.Context".data text = false :=
    containsSub_false_of_ws h (show 'c' ∈ "context.Context".data by decide) (by decide)
  simp [analyze_code_structure, hscan, hsel, hwg, hctx]

/-- Witness for C4 at the whitespace-only input `"   \n\t "`. -/
theorem empty_input_yields_empty_result_witness :
    analyze_code_structure "   \n\t ".data =
      some
        { entities_count := 0
          relationships_count := 0
          entities := []
          relationships := []
          patterns := ∅ } :=
  empty_input_yields_empty_result _ (by decide)

/-- C5: `calculate_complexity_score` returns exactly
`round(0.1*e + 0.2*r + 0.5*p, 2)` where `e`, `r`, `p` are the entity,
relationship, and design-pattern counts, and nothing else; the rounding
is the identity here, the score being exactly `(e + 2r + 5p)/10`. -/
theorem complexity_score_formula (s : StructureResult) (d : DesignPatternResult) :
    calculate_complexity_score s d =
      pyRound2 ((1 / 10 : ℚ) * s.entities_count + (2 / 10) * s.relationships_count +
        (5 / 10) * d.design_patterns.length) ∧
    calculate_complexity_score s d =
      ((s.entities_count : ℚ) + 2 * s.relationships_count + 5 * d.design_patterns.length) / 10 := by
  constructor
  · unfold calculate_complexity_score
    ring_nf
  · simp only [calculate_complexity_score, pyRound2]
    have h1 : ((s.entities_count : ℚ) * (1 / 10) + s.relationships_count * (2 / 10) +
        d.design_patterns.length * (5 / 10)) * 100 =
        ((10 * s.entities_count + 20 * s.relationships_count +
          50 * d.design_patterns.length : ℤ) : ℚ) := by
      push_cast
      ring
    rw [h1, round_intCast]
    push_cast
    field_simp
    ring

/-- C6: the common-pattern set of `generate_cross_language_insights` is
symmetric in its arguments, and the two unique-pattern sets swap. -/
theorem merge_insights_symmetric (A B : InsightInput) :
    (generate_cross_language_insights A B).common_patterns =
      (generate_cross_language_insights B A).common_patterns ∧
    (generate_cross_language_insights A B).python_unique =
      (generate_cross_language_insights B A).go_unique ∧
    (generate_cross_language_insights A B).go_unique =
      (generate_cross_language_insights B A).python_unique :=
  ⟨Finset.inter_comm _ _, rfl, rfl⟩

/-- C7: the entity list and the relationship list produced by
`analyze_code_structure` are sorted in ascending order of their `line`
field, for every input text. -/
theorem scan_output_sorted_by_line (text : PyStr) (r : StructureResult)
    (h : analyze_code_structure text = some r) :
    r.entities.Pairwise (fun a b => a.line ≤ b.line) ∧
    r.relationships.Pairwise (fun a b => a.line ≤ b.line) := by
  simp only [analyze_code_structure, Option.bind_eq_bind, Option.bind_eq_some] at h
  obtain ⟨⟨es, rs, ps⟩, hscan, heq⟩ := h
  have hs := scanLines_sorted _ 0 hscan
  injection heq with heq
  subst heq
  exact ⟨hs.2.1.imp (fun hab => Nat.le_of_lt hab),
    hs.2.2.2.imp (fun hab => Nat.le_of_lt hab)⟩

/-- Witness for C7 at the input `"func A() \x7b\n  go B()\n\x7d"`. -/
theorem scan_output_sorted_by_line_witness :
    ([⟨"function".data, "A".data, 1⟩] : List Entity).Pairwise
      (fun a b => a.line ≤ b.line) ∧
    ([⟨"launches".data, "current_function".data, "B".data, 2⟩] :
      List Relationship).Pairwise (fun a b => a.line ≤ b.line) :=
  scan_output_sorted_by_line "func A() \x7b\n  go B()\n\x7d".data
    { entities_count := 1
      relationships_count := 1
      entities := [⟨"function".data, "A".data, 1⟩]
      relationships := [⟨"launches".data, "current_function".data, "B".data, 2⟩]
      patterns := {"goroutine_launch".data} } (by decide)

/-- C8: for every input string, the scanner and the two language
specializers terminate without an exception: every modelled token-indexing
step succeeds, so none of them returns `none`.  (`extract_design_patterns`
performs no indexing at all; its model is a total function by type.) -/
theorem analyzers_total (text : PyStr) :
    (analyze_code_structure text).isSome = true ∧
    (analyze_python_code text).isSome = true ∧
    (analyze_go_code text).isSome = true ∧
    (extract_design_patterns text).pattern_count =
      (extract_design_patterns text).design_patterns.length :=
  ⟨analyze_code_structure_isSome text, analyze_python_code_isSome text,
    analyze_go_code_isSome text, rfl⟩

/-- C9: the language specializers return the base scan unchanged as their
`base` component — entities, relationships, and base pattern set included —
attaching only the separate language field and pattern list. -/
theorem specializers_preserve_base :
    (∀ (text : PyStr) (r : LangResult), analyze_python_code text = some r →
      analyze_code_structure text = some r.base ∧ r.language = "python".data) ∧
    (∀ (text : PyStr) (r : LangResult), analyze_go_code text = some r →
      analyze_code_structure text = some r.base ∧ r.language = "go".data) := by
  constructor
  · intro text r h
    simp only [analyze_python_code, Option.bind_eq_bind, Option.bind_eq_some] at h
    obtain ⟨b, hb, heq⟩ := h
    injection heq with heq
    subst heq
    exact ⟨hb, rfl⟩
  · intro text r h
    simp only [analyze_go_code, Option.bind_eq_bind, Option.bind_eq_some] at h
    obtain ⟨b, hb, heq⟩ := h
    injection heq with heq
    subst heq
    exact ⟨hb, rfl⟩

/-- Witness for C9: a python-like input and a go-like input with their
explicit specializer outputs. -/
theorem specializers_preserve_base_witness :
    (analyze_code_structure "def foo():\n    yield 1".data =
        some
          { entities_count := 1
            relationships_count := 0
            entities := [⟨"function".data, "foo".data, 1⟩]
            relationships := []
            patterns := ∅ } ∧
      ("python".data : PyStr) = "python".data) ∧
    (analyze_code_structure "func Main() \x7b\n\tdefer Close()\n\x7d".data =
        some
          { entities_count := 1
            relationships_count := 0
            entities := [⟨"function".data, "Main".data, 1⟩]
            relationships := []
            patterns := ∅ } ∧
      ("go".data : PyStr) = "go".data) :=
  ⟨specializers_preserve_base.1 "def foo():\n    yield 1".data
      ⟨{ entities_count := 1
         relationships_count := 0
         entities := [⟨"function".data, "foo".data, 1⟩]
         relationships := []
         patterns := ∅ }, ["generator_pattern".data], "python".data⟩ (by decide),
    specializers_preserve_base.2 "func Main() \x7b\n\tdefer Close()\n\x7d".data
      ⟨{ entities_count := 1
         relationships_count := 0
         entities := [⟨"function".data, "Main".data, 1⟩]
         relationships := []
         patterns := ∅ }, ["defer_usage".data], "go".data⟩ (by decide)⟩

/-- C10: `analyze_go_code` tags `generics_usage` iff the character `[`
occurs in the text, the character `]` occurs in the text, and the
substring `"func"` occurs in the text — regardless of context. -/
theorem generics_usage_iff_bracket_markers (text : PyStr) (r : LangResult)
    (h : analyze_go_code text = some r) :
    "generics_usage".data ∈ r.lang_patterns ↔
      ('[' ∈ text ∧ ']' ∈ text ∧ containsSub "func".data text = true) := by
  simp only [analyze_go_code, Option.bind_eq_bind, Option.bind_eq_some] at h
  obtain ⟨b, hb, heq⟩ := h
  injection heq with heq
  subst heq
  simp +decide only [List.append_assoc, mem_ite_singleton, mem_ite_singleton',
    Bool.and_eq_true, and_true, and_false, or_false, false_or]
  simp only [containsSub_singleton]
  tauto

/-- Witness for C10 at the input `"func f[T]() \x7b\x7d"`. -/
theorem generics_usage_iff_bracket_markers_witness :
    ("generics_usage".data ∈ (["generics_usage".data] : List PyStr) ↔
      ('[' ∈ "func f[T]() \x7b\x7d".data ∧ ']' ∈ "func f[T]() \x7b\x7d".data ∧
        containsSub "func".data "func f[T]() \x7b\x7d".data = true)) :=
  generics_usage_iff_bracket_markers "func f[T]() \x7b\x7d".data
    ⟨{ entities_count := 1
       relationships_count := 0
       entities := [⟨"function".data, "f[T]".data, 1⟩]
       relationships := []
       patterns := ∅ }, ["generics_usage".data], "go".data⟩ (by decide)
